import Mathlib

/-!
Shallow embedding of the algorithmic core of `src/file_1.py`:
technical indicators (EMA / RSI / MACD columns), the confluence score,
the path-dependent TP/SL backtest loop, the performance metrics and the
live-signal classification.  Prices are modelled as exact rationals;
the source's IEEE special values (the NaN produced by `0.0/0.0` in the
RSI column, the `inf` produced by `x/0.0`) are modelled explicitly:
an undefined RSI value is `none`, and the profit factor lives in a type
with a separate point at infinity.
-/

namespace BT

/-- One OHLC bar (the `High`, `Low`, `Close` columns the backtest reads). -/
structure Bar where
  high : ℚ
  low : ℚ
  close : ℚ
deriving DecidableEq, Inhabited

/-- `SPREAD_PIPS = 0.00010` from the source configuration. -/
def SPREAD_PIPS : ℚ := 1 / 10000

/-- `TP_PIPS = 0.0010` from the source configuration. -/
def TP_PIPS : ℚ := 10 / 10000

/-- `SL_PIPS = 0.0008` from the source configuration. -/
def SL_PIPS : ℚ := 8 / 10000

/-- `MAX_HOLD_BARS = 24` from the source configuration. -/
def MAX_HOLD_BARS : ℕ := 24

/-- Tail of pandas `Series.ewm(..., adjust=False).mean()`:
given the previous smoothed value, each new observation `x` yields
`y = prev + a * (x - prev)`. -/
def ewmRec (a : ℚ) : ℚ → List ℚ → List ℚ
  | _, [] => []
  | prev, x :: xs =>
    let y := prev + a * (x - prev)
    y :: ewmRec a y xs

/-- pandas `Series.ewm(..., adjust=False).mean()`: seeded with the first
observation, then the exponential recurrence. -/
def ewm (a : ℚ) : List ℚ → List ℚ
  | [] => []
  | x :: xs => x :: ewmRec a x xs

/-- `df["EMA20"] = df["Close"].ewm(span=20, adjust=False).mean()`;
`span=20` gives `alpha = 2/21`. -/
def ema20 (c : List ℚ) : List ℚ := ewm (2 / 21) c

/-- `df["EMA50"]`, `span=50`, `alpha = 2/51`. -/
def ema50 (c : List ℚ) : List ℚ := ewm (2 / 51) c

/-- `df["EMA200"]`, `span=200`, `alpha = 2/201`. -/
def ema200 (c : List ℚ) : List ℚ := ewm (2 / 201) c

/-- `delta = df["Close"].diff()` (the defined entries: element `k` is
`close[k+1] - close[k]`). -/
def deltas (c : List ℚ) : List ℚ :=
  List.zipWith (fun x y => x - y) c.tail c

/-- `gain = delta.where(delta > 0, 0.0)`: the leading `NaN` of `diff`
is replaced by `0.0` by `where`, the rest is `max delta 0`. -/
def gains (c : List ℚ) : List ℚ :=
  match c with
  | [] => []
  | _ :: _ => 0 :: (deltas c).map (fun d => max d 0)

/-- `loss = -delta.where(delta < 0, 0.0)`. -/
def lossSeries (c : List ℚ) : List ℚ :=
  match c with
  | [] => []
  | _ :: _ => 0 :: (deltas c).map (fun d => max (-d) 0)

/-- `avg_gain = gain.ewm(alpha=1/14, adjust=False).mean()`. -/
def avg_gain (c : List ℚ) : List ℚ := ewm (1 / 14) (gains c)

/-- `avg_loss = loss.ewm(alpha=1/14, adjust=False).mean()`. -/
def avg_loss (c : List ℚ) : List ℚ := ewm (1 / 14) (lossSeries c)

/-- `rs = avg_gain / avg_loss; RSI = 100 - 100/(1+rs)` with IEEE float
semantics for a zero divisor: `g/0 = inf` for `g > 0` propagates to
`RSI = 100`, and `0/0 = NaN` propagates to an undefined RSI (`none`).
The divisor `avg_loss` is nonnegative by construction. -/
def rsiOf (g l : ℚ) : Option ℚ :=
  if l = 0 then (if g = 0 then none else some 100)
  else some (100 - 100 / (1 + g / l))

/-- The `df["RSI"]` column. -/
def rsiList (c : List ℚ) : List (Option ℚ) :=
  List.zipWith rsiOf (avg_gain c) (avg_loss c)

/-- `df["MACD"] = ewm(span=12) - ewm(span=26)` of the closes. -/
def macdList (c : List ℚ) : List ℚ :=
  List.zipWith (fun x y => x - y) (ewm (2 / 13) c) (ewm (2 / 27) c)

/-- `df["MACD_SIGNAL"] = df["MACD"].ewm(span=9, adjust=False).mean()`;
`span=9` gives `alpha = 1/5`. -/
def macdSignalList (c : List ℚ) : List ℚ := ewm (1 / 5) (macdList c)

/-- One `if a > b: +1 elif a < b: -1` filter of the backtest loop
(filters 1-3: trend, EMA crossover, MACD momentum). -/
def cmpFilter (a b : ℚ) : Int :=
  if a > b then 1 else if a < b then -1 else 0

/-- Filter 4, `if row["RSI"] < 40: +1 elif row["RSI"] > 60: -1`:
a NaN RSI compares false on both sides in the source, contributing 0. -/
def rsiFilter : Option ℚ → Int
  | none => 0
  | some r => if r < 40 then 1 else if r > 60 then -1 else 0

/-- The 4-filter confluence score of the backtest loop at bar `i`. -/
def scoreAt (c : List ℚ) (i : ℕ) : Int :=
  cmpFilter (c.getD i 0) ((ema200 c).getD i 0)
    + cmpFilter ((ema20 c).getD i 0) ((ema50 c).getD i 0)
    + cmpFilter ((macdList c).getD i 0) ((macdSignalList c).getD i 0)
    + rsiFilter ((rsiList c).getD i none)

/-- Trade direction (`signal = "BUY" / "SELL"` in the source). -/
inductive Dir
  | BUY
  | SELL
deriving DecidableEq, Inhabited

/-- `if score >= 3: BUY elif score <= -3: SELL else: continue` —
the gate that decides whether the backtest opens a trade at a bar. -/
def decision (s : Int) : Option Dir :=
  if s ≥ 3 then some Dir.BUY else if s ≤ -3 then some Dir.SELL else none

/-- Trade outcome (`trade_result = "WIN" / "LOSS"`). -/
inductive Outcome
  | WIN
  | LOSS
deriving DecidableEq, Inhabited

/-- The take-profit condition tested first at each future bar:
BUY: `high >= entry + tp`; SELL: `low <= entry - tp`. -/
def tpHit (dir : Dir) (entry tp : ℚ) (b : Bar) : Bool :=
  match dir with
  | Dir.BUY => b.high ≥ entry + tp
  | Dir.SELL => b.low ≤ entry - tp

/-- The stop-loss condition tested second at each future bar:
BUY: `low <= entry - sl`; SELL: `high >= entry + sl`. -/
def slHit (dir : Dir) (entry sl : ℚ) (b : Bar) : Bool :=
  match dir with
  | Dir.BUY => b.low ≤ entry - sl
  | Dir.SELL => b.high ≥ entry + sl

/-- The exact price recorded on a take-profit exit. -/
def tpLevel (dir : Dir) (entry tp : ℚ) : ℚ :=
  match dir with
  | Dir.BUY => entry + tp
  | Dir.SELL => entry - tp

/-- The exact price recorded on a stop-loss exit. -/
def slLevel (dir : Dir) (entry sl : ℚ) : ℚ :=
  match dir with
  | Dir.BUY => entry - sl
  | Dir.SELL => entry + sl

/-- The forward scan over the future bars (`for j in range(1, MAX_HOLD_BARS+1)`):
at each bar the TP condition is tested, then the SL condition; the first hit
closes the trade at the exact level and stops the scan (`break`). -/
def scan (dir : Dir) (entry tp sl : ℚ) : List Bar → Option (ℚ × Outcome)
  | [] => none
  | b :: rest =>
    if tpHit dir entry tp b then some (tpLevel dir entry tp, Outcome.WIN)
    else if slHit dir entry sl b then some (slLevel dir entry sl, Outcome.LOSS)
    else scan dir entry tp sl rest

/-- `pips = (exit - entry) * 10000` for BUY, `(entry - exit) * 10000` for SELL. -/
def pipsOf (dir : Dir) (entry exitP : ℚ) : ℚ :=
  match dir with
  | Dir.BUY => (exitP - entry) * 10000
  | Dir.SELL => (entry - exitP) * 10000

/-- One record of the `results` list appended by the backtest loop. -/
structure SimTrade where
  index : ℕ
  dir : Dir
  entry : ℚ
  exitPrice : ℚ
  pips : ℚ
  result : Outcome
deriving DecidableEq, Inhabited

/-- The lookahead window scanned for a trade opened at `i`:
bars `i+1 .. i+hold`. -/
def futureWindow (series : List Bar) (i hold : ℕ) : List Bar :=
  (series.drop (i + 1)).take hold

/-- `effective_entry`: the close of the entry bar with the spread applied
adversely (`close + spread` for BUY, `close - spread` for SELL). -/
def entryOf (spread : ℚ) (series : List Bar) (i : ℕ) (dir : Dir) : ℚ :=
  match dir with
  | Dir.BUY => (series.getD i default).close + spread
  | Dir.SELL => (series.getD i default).close - spread

/-- The time-exit classification: WIN exactly on a strictly favorable
move relative to the effective entry, else LOSS. -/
def timeExitResult (dir : Dir) (entry exitP : ℚ) : Outcome :=
  if (dir = Dir.BUY ∧ exitP > entry) ∨ (dir = Dir.SELL ∧ exitP < entry)
  then Outcome.WIN else Outcome.LOSS

/-- One iteration of the backtest loop at bar `i`: compute the score,
skip unless it reaches ±3, apply the spread adversely, scan forward for
the first TP/SL touch, otherwise time-exit at `close[i+hold]`. -/
def simulateAt (spread tp sl : ℚ) (hold : ℕ) (series : List Bar) (i : ℕ) :
    Option SimTrade :=
  match decision (scoreAt (series.map Bar.close) i) with
  | none => none
  | some dir =>
    match scan dir (entryOf spread series i dir) tp sl (futureWindow series i hold) with
    | some (exitP, res) =>
      some ⟨i, dir, entryOf spread series i dir, exitP,
            pipsOf dir (entryOf spread series i dir) exitP, res⟩
    | none =>
      some ⟨i, dir, entryOf spread series i dir, (series.getD (i + hold) default).close,
            pipsOf dir (entryOf spread series i dir) ((series.getD (i + hold) default).close),
            timeExitResult dir (entryOf spread series i dir)
              ((series.getD (i + hold) default).close)⟩

/-- `start_idx = max(200, len(df) - 1000)` from the source. -/
def start_idx (n : ℕ) : ℕ := max 200 (n - 1000)

/-- `range(start_idx, len(df) - MAX_HOLD_BARS)`: the bar indices the
backtest loop visits. -/
def backtestIndices (n : ℕ) : List ℕ :=
  (List.range (n - MAX_HOLD_BARS)).drop (start_idx n)

/-- The full backtest: the ordered list of trades the loop appends. -/
def backtest (series : List Bar) : List SimTrade :=
  (backtestIndices series.length).filterMap
    (simulateAt SPREAD_PIPS TP_PIPS SL_PIPS MAX_HOLD_BARS series)

/-- `win_pips = sum(r["pips"] for r in results if r["result"] == "WIN")`. -/
def winPips (rs : List SimTrade) : ℚ :=
  ((rs.filter (fun r => r.result == Outcome.WIN)).map SimTrade.pips).sum

/-- `loss_pips = abs(sum(r["pips"] for r in results if r["result"] == "LOSS"))`. -/
def lossPips (rs : List SimTrade) : ℚ :=
  |((rs.filter (fun r => r.result == Outcome.LOSS)).map SimTrade.pips).sum|

/-- The value of the profit factor: a rational, or the float `inf`
the source produces when the divisor is not positive. -/
inductive PF
  | val (q : ℚ)
  | inf
deriving DecidableEq

/-- `profit_factor = win_pips / loss_pips if loss_pips > 0 else float('inf')`. -/
def profit_factor (rs : List SimTrade) : PF :=
  if lossPips rs > 0 then PF.val (winPips rs / lossPips rs) else PF.inf

/-- The confidence percentage attached to the live signal
(`100` for a strong signal, `67` for a moderate one, else `0`). -/
def liveConfidence (s : Int) : ℕ :=
  if s ≥ 3 then 100
  else if s ≤ -3 then 100
  else if s ≥ 2 then 67
  else if s ≤ -2 then 67
  else 0

/-- Signal categories of the specification's data model. -/
inductive SigCat
  | STRONG_BUY
  | BUY
  | SELL
  | STRONG_SELL
  | NEUTRAL
deriving DecidableEq

/-- Follows the spec's words (4-filter classification, for comparison with
the source's gate): score ≥ 3 → STRONG_BUY, score ≤ -3 → STRONG_SELL,
score = 2 → BUY, score = -2 → SELL, otherwise NEUTRAL. -/
def specClassify4 (s : Int) : SigCat :=
  if s ≥ 3 then SigCat.STRONG_BUY
  else if s ≤ -3 then SigCat.STRONG_SELL
  else if s = 2 then SigCat.BUY
  else if s = -2 then SigCat.SELL
  else SigCat.NEUTRAL

/-- Follows the spec's words (for comparison with the source's banded
confidence): confidence = |score| / maxScore with maxScore = 4, as a
percentage. -/
def specConfidence4 (s : Int) : ℚ := (s.natAbs : ℚ) * 100 / 4

/-- Modelled from the spec: ATR(14) is absent from `src/file_1.py` (which
computes only the EMA, RSI and MACD columns); the spec attributes ATR to a
second, independently evolved source variant not present under `src`.
`TrueRange[t] = max(high[t]-low[t], |high[t]-close[t-1]|, |low[t]-close[t-1]|)`. -/
def trueRange (prevClose : ℚ) (b : Bar) : ℚ :=
  max (b.high - b.low) (max |b.high - prevClose| |b.low - prevClose|)

/-- Modelled from the spec: the TrueRange series; element `k` is
`TrueRange[k+1]` (the value at bar `k+1`, using the close of bar `k`). -/
def trList (bars : List Bar) : List ℚ :=
  List.zipWith (fun b p => trueRange p.close b) bars.tail bars

/-- Modelled from the spec: ATR(14) at bar `t` (for `14 ≤ t`) is the plain
arithmetic mean of the last 14 TrueRange values, `TrueRange[t-13 .. t]`. -/
def atrAt (bars : List Bar) (t : ℕ) : ℚ :=
  (((trList bars).drop (t - 14)).take 14).sum / 14

/-- A bar whose high, low and close coincide (used for concrete test data). -/
def flatBar (c : ℚ) : Bar := ⟨c, c, c⟩

/-- Concrete 5-bar series whose score at bar 3 is +3 (close above EMA200,
EMA20 above EMA50, MACD above its signal, RSI inside the neutral zone) and
whose single lookahead bar touches the take-profit level. -/
def wSeriesC : List Bar := [1, 3/2, 1, 101/100, 102/100].map flatBar

/-- Concrete 5-bar series whose score at bar 3 is +3 and whose single
lookahead bar stays strictly inside the TP/SL corridor, slightly above
the effective entry, forcing a favorable time exit. -/
def wSeriesD : List Bar := [1, 3/2, 1, 101/100, 10105/10000].map flatBar

/-- The trade the backtest records on `wSeriesC` at bar 3 with a one-bar
holding window: a take-profit WIN at exactly `entry + TP_PIPS`. -/
def wTradeC : SimTrade :=
  ⟨3, Dir.BUY, 10101/10000, 10111/10000, 10, Outcome.WIN⟩

/-- A one-element trade list holding a losing trade (for aggregator tests). -/
def wLossTrades : List SimTrade :=
  [⟨0, Dir.BUY, 1, 1/2, -8, Outcome.LOSS⟩]

/-- Concrete 16-bar series with unit steps: every TrueRange equals 1. -/
def wBarsC : List Bar := (List.range 16).map (fun k => flatBar ((k : ℚ) + 1))

end BT

namespace BT

/-! ### Indexing helpers -/

theorem getD_zipWith {α β γ : Type} (f : α → β → γ) :
    ∀ (as : List α) (bs : List β) (i : ℕ) (da : α) (db : β) (dc : γ),
      i < as.length → i < bs.length →
      (List.zipWith f as bs).getD i dc = f (as.getD i da) (bs.getD i db) := by
  intro as
  induction as with
  | nil => intro bs i da db dc ha hb; simp at ha
  | cons a as ih =>
    intro bs i da db dc ha hb
    cases bs with
    | nil => simp at hb
    | cons b bs =>
      cases i with
      | zero => simp
      | succ i =>
        simpa using ih bs i da db dc (by simpa using ha) (by simpa using hb)

theorem getD_map {α β : Type} (f : α → β) :
    ∀ (l : List α) (i : ℕ) (d : α) (d' : β), i < l.length →
      (l.map f).getD i d' = f (l.getD i d) := by
  intro l
  induction l with
  | nil => intro i d d' h; simp at h
  | cons x xs ih =>
    intro i d d' h
    cases i with
    | zero => simp
    | succ i => simpa using ih i d d' (by simpa using h)

theorem getD_tail {α : Type} (l : List α) (i : ℕ) (d : α) :
    l.tail.getD i d = l.getD (i + 1) d := by
  cases l <;> simp

/-! ### Lengths of the indicator columns -/

theorem length_ewmRec (a : ℚ) :
    ∀ (p : ℚ) (xs : List ℚ), (ewmRec a p xs).length = xs.length := by
  intro p xs
  induction xs generalizing p with
  | nil => rfl
  | cons x xs ih => simpa [ewmRec] using ih _

theorem length_ewm (a : ℚ) (xs : List ℚ) : (ewm a xs).length = xs.length := by
  cases xs with
  | nil => rfl
  | cons x xs => simp [ewm, length_ewmRec]

theorem length_deltas (c : List ℚ) : (deltas c).length = c.length - 1 := by
  cases c with
  | nil => rfl
  | cons x xs => simp [deltas]

theorem length_gains (c : List ℚ) : (gains c).length = c.length := by
  cases c with
  | nil => rfl
  | cons x xs => simp [gains, length_deltas]

theorem length_lossSeries (c : List ℚ) : (lossSeries c).length = c.length := by
  cases c with
  | nil => rfl
  | cons x xs => simp [lossSeries, length_deltas]

theorem length_avg_gain (c : List ℚ) : (avg_gain c).length = c.length := by
  simp [avg_gain, length_ewm, length_gains]

theorem length_avg_loss (c : List ℚ) : (avg_loss c).length = c.length := by
  simp [avg_loss, length_ewm, length_lossSeries]

theorem length_macdList (c : List ℚ) : (macdList c).length = c.length := by
  simp [macdList, length_ewm]

theorem length_rsiList (c : List ℚ) : (rsiList c).length = c.length := by
  simp [rsiList, length_avg_gain, length_avg_loss]

end BT

namespace BT

/-! ### Analytic facts about the exponential smoothing recurrence -/

theorem ewmRec_getD_nonneg (a : ℚ) (ha0 : 0 ≤ a) (ha1 : a ≤ 1) :
    ∀ (xs : List ℚ) (p : ℚ), 0 ≤ p → (∀ x ∈ xs, 0 ≤ x) →
      ∀ i : ℕ, 0 ≤ (ewmRec a p xs).getD i 0 := by
  intro xs
  induction xs with
  | nil => intro p hp hxs i; simp [ewmRec]
  | cons x xs ih =>
    intro p hp hxs i
    have hx : 0 ≤ x := hxs x (List.mem_cons_self x xs)
    have hy : 0 ≤ p + a * (x - p) := by nlinarith
    cases i with
    | zero => simpa [ewmRec] using hy
    | succ i =>
      simpa [ewmRec] using
        ih (p + a * (x - p)) hy (fun z hz => hxs z (List.mem_cons_of_mem x hz)) i

theorem ewm_getD_nonneg (a : ℚ) (ha0 : 0 ≤ a) (ha1 : a ≤ 1) (xs : List ℚ)
    (hxs : ∀ x ∈ xs, 0 ≤ x) (i : ℕ) : 0 ≤ (ewm a xs).getD i 0 := by
  cases xs with
  | nil => simp [ewm]
  | cons x xs =>
    have hx : 0 ≤ x := hxs x (List.mem_cons_self x xs)
    cases i with
    | zero => simpa [ewm] using hx
    | succ i =>
      simpa [ewm] using
        ewmRec_getD_nonneg a ha0 ha1 xs x hx
          (fun z hz => hxs z (List.mem_cons_of_mem x hz)) i

theorem ewmRec_getD_eq_zero (a : ℚ) (ha0 : 0 < a) (ha1 : a < 1) :
    ∀ (xs : List ℚ) (p : ℚ) (i : ℕ), 0 ≤ p → (∀ x ∈ xs, 0 ≤ x) →
      i < xs.length → (ewmRec a p xs).getD i 0 = 0 →
      p = 0 ∧ ∀ k, k ≤ i → xs.getD k 0 = 0 := by
  intro xs
  induction xs with
  | nil => intro p i _ _ hi; simp at hi
  | cons x xs ih =>
    intro p i hp hxs hi h0
    have hx : 0 ≤ x := hxs x (List.mem_cons_self x xs)
    have hy : 0 ≤ p + a * (x - p) := by nlinarith
    cases i with
    | zero =>
      have hyz : p + a * (x - p) = 0 := by simpa [ewmRec] using h0
      have hpz : p = 0 := by nlinarith
      have hxz : x = 0 := by nlinarith
      refine ⟨hpz, ?_⟩
      intro k hk
      have hk0 : k = 0 := Nat.le_zero.mp hk
      subst hk0
      simpa using hxz
    | succ i =>
      have h0' : (ewmRec a (p + a * (x - p)) xs).getD i 0 = 0 := by
        simpa [ewmRec] using h0
      obtain ⟨hyz, hall⟩ :=
        ih (p + a * (x - p)) i hy (fun z hz => hxs z (List.mem_cons_of_mem x hz))
          (by simpa using hi) h0'
      have hpz : p = 0 := by nlinarith
      have hxz : x = 0 := by nlinarith
      refine ⟨hpz, ?_⟩
      intro k hk
      cases k with
      | zero => simpa using hxz
      | succ k => simpa using hall k (by omega)

theorem ewm_getD_eq_zero (a : ℚ) (ha0 : 0 < a) (ha1 : a < 1) (xs : List ℚ)
    (hxs : ∀ x ∈ xs, 0 ≤ x) (i : ℕ) (hi : i < xs.length)
    (h0 : (ewm a xs).getD i 0 = 0) : ∀ k, k ≤ i → xs.getD k 0 = 0 := by
  cases xs with
  | nil => simp at hi
  | cons x xs =>
    have hx : 0 ≤ x := hxs x (List.mem_cons_self x xs)
    cases i with
    | zero =>
      have hxz : x = 0 := by simpa [ewm] using h0
      intro k hk
      have hk0 : k = 0 := Nat.le_zero.mp hk
      subst hk0
      simpa using hxz
    | succ i =>
      have h0' : (ewmRec a x xs).getD i 0 = 0 := by simpa [ewm] using h0
      obtain ⟨hxz, hall⟩ :=
        ewmRec_getD_eq_zero a ha0 ha1 xs x i hx
          (fun z hz => hxs z (List.mem_cons_of_mem x hz)) (by simpa using hi) h0'
      intro k hk
      cases k with
      | zero => simpa using hxz
      | succ k => simpa using hall k (by omega)

theorem ewmRec_getD_constUpTo (a v : ℚ) :
    ∀ (xs : List ℚ) (i : ℕ), i < xs.length → (∀ k, k ≤ i → xs.getD k 0 = v) →
      (ewmRec a v xs).getD i 0 = v := by
  intro xs
  induction xs with
  | nil => intro i hi; simp at hi
  | cons x xs ih =>
    intro i hi hconst
    have hx : x = v := by simpa using hconst 0 (Nat.zero_le i)
    subst hx
    have hy : x + a * (x - x) = x := by ring
    cases i with
    | zero => simp [ewmRec]
    | succ i =>
      have : (ewmRec a (x + a * (x - x)) xs).getD i 0 = x := by
        rw [hy]
        exact ih i (by simpa using hi) (fun k hk => by simpa using hconst (k + 1) (by omega))
      simpa [ewmRec] using this

theorem ewm_getD_constUpTo (a v : ℚ) (xs : List ℚ) (i : ℕ) (hi : i < xs.length)
    (hconst : ∀ k, k ≤ i → xs.getD k 0 = v) : (ewm a xs).getD i 0 = v := by
  cases xs with
  | nil => simp at hi
  | cons x xs =>
    have hx : x = v := by simpa using hconst 0 (Nat.zero_le i)
    subst hx
    cases i with
    | zero => simp [ewm]
    | succ i =>
      simpa [ewm] using
        ewmRec_getD_constUpTo a x xs i (by simpa using hi)
          (fun k hk => by simpa using hconst (k + 1) (by omega))

end BT

namespace BT

/-! ### Facts about the forward scan and the per-bar simulation step -/

theorem scan_some_inv (dir : Dir) (entry tp sl : ℚ) :
    ∀ (fb : List Bar) (ex : ℚ) (res : Outcome),
      scan dir entry tp sl fb = some (ex, res) →
      (res = Outcome.WIN ∧ ex = tpLevel dir entry tp) ∨
      (res = Outcome.LOSS ∧ ex = slLevel dir entry sl) := by
  intro fb
  induction fb with
  | nil => intro ex res h; simp [scan] at h
  | cons b rest ih =>
    intro ex res h
    by_cases h1 : tpHit dir entry tp b = true
    · left
      simp [scan, h1] at h
      exact ⟨h.2.symm, h.1.symm⟩
    · by_cases h2 : slHit dir entry sl b = true
      · right
        simp [scan, h1, h2] at h
        exact ⟨h.2.symm, h.1.symm⟩
      · exact ih ex res (by simpa [scan, h1, h2] using h)

theorem simulateAt_eq_timeExit (spread tp sl : ℚ) (hold i : ℕ) (series : List Bar)
    (dir : Dir)
    (hdec : decision (scoreAt (series.map Bar.close) i) = some dir)
    (hscan : scan dir (entryOf spread series i dir) tp sl (futureWindow series i hold) = none) :
    simulateAt spread tp sl hold series i =
      some ⟨i, dir, entryOf spread series i dir, (series.getD (i + hold) default).close,
        pipsOf dir (entryOf spread series i dir) ((series.getD (i + hold) default).close),
        timeExitResult dir (entryOf spread series i dir)
          ((series.getD (i + hold) default).close)⟩ := by
  unfold simulateAt
  split
  next h => rw [h] at hdec; cases hdec
  next dir' h =>
    rw [h] at hdec
    injection hdec with hdd
    subst hdd
    split
    next exitP res h2 => rw [hscan] at h2; cases h2
    next h2 => rfl

theorem simulateAt_eq_scanExit (spread tp sl : ℚ) (hold i : ℕ) (series : List Bar)
    (dir : Dir) (ex : ℚ) (res : Outcome)
    (hdec : decision (scoreAt (series.map Bar.close) i) = some dir)
    (hscan : scan dir (entryOf spread series i dir) tp sl (futureWindow series i hold) =
      some (ex, res)) :
    simulateAt spread tp sl hold series i =
      some ⟨i, dir, entryOf spread series i dir, ex,
        pipsOf dir (entryOf spread series i dir) ex, res⟩ := by
  unfold simulateAt
  split
  next h => rw [h] at hdec; cases hdec
  next dir' h =>
    rw [h] at hdec
    injection hdec with hdd
    subst hdd
    split
    next exitP res h2 =>
      rw [hscan] at h2
      injection h2 with h2
      rw [Prod.mk.injEq] at h2
      rw [h2.1, h2.2]
    next h2 => rw [hscan] at h2; cases h2

theorem simulateAt_some_inv (spread tp sl : ℚ) (hold i : ℕ) (series : List Bar)
    (t : SimTrade) (ht : simulateAt spread tp sl hold series i = some t) :
    t.index = i ∧ t.entry = entryOf spread series i t.dir ∧
    t.pips = pipsOf t.dir t.entry t.exitPrice ∧
    (scan t.dir t.entry tp sl (futureWindow series i hold) = some (t.exitPrice, t.result) ∨
      (scan t.dir t.entry tp sl (futureWindow series i hold) = none ∧
        t.exitPrice = (series.getD (i + hold) default).close ∧
        t.result = timeExitResult t.dir t.entry t.exitPrice)) := by
  unfold simulateAt at ht
  split at ht
  next => cases ht
  next dir h =>
    split at ht
    next ex res h2 =>
      injection ht with ht
      subst ht
      exact ⟨rfl, rfl, rfl, Or.inl h2⟩
    next h2 =>
      injection ht with ht
      subst ht
      exact ⟨rfl, rfl, rfl, Or.inr ⟨h2, rfl, rfl⟩⟩

theorem simulateAt_none_iff (spread tp sl : ℚ) (hold i : ℕ) (series : List Bar) :
    simulateAt spread tp sl hold series i = none ↔
      decision (scoreAt (series.map Bar.close) i) = none := by
  unfold simulateAt
  split
  next h => simp [h]
  next dir h =>
    rw [h]
    split
    next ex res h2 => simp
    next h2 => simp

/-! ### The iteration range of the backtest loop -/

theorem mem_backtestIndices (n i : ℕ) :
    i ∈ backtestIndices n ↔ start_idx n ≤ i ∧ i < n - MAX_HOLD_BARS := by
  unfold backtestIndices
  constructor
  · intro h
    obtain ⟨j, hj⟩ := List.mem_iff_getElem?.mp h
    rw [List.getElem?_drop] at hj
    by_cases hlt : start_idx n + j < n - MAX_HOLD_BARS
    · rw [List.getElem?_range hlt] at hj
      injection hj with hj
      omega
    · rw [List.getElem?_eq_none (by simpa using hlt)] at hj
      cases hj
  · rintro ⟨h1, h2⟩
    apply List.mem_iff_getElem?.mpr
    refine ⟨i - start_idx n, ?_⟩
    rw [List.getElem?_drop]
    have : start_idx n + (i - start_idx n) = i := by omega
    rw [this]
    exact List.getElem?_range h2

theorem backtest_mem_inv (series : List Bar) (t : SimTrade)
    (ht : t ∈ backtest series) :
    ∃ i, i ∈ backtestIndices series.length ∧
      simulateAt SPREAD_PIPS TP_PIPS SL_PIPS MAX_HOLD_BARS series i = some t := by
  unfold backtest at ht
  obtain ⟨i, hi, hsim⟩ := List.mem_filterMap.mp ht
  exact ⟨i, hi, hsim⟩

end BT

namespace BT

/-! ### The gain/loss columns and constant-price propagation -/

theorem gains_nonneg (c : List ℚ) : ∀ x ∈ gains c, 0 ≤ x := by
  cases c with
  | nil => simp [gains]
  | cons y ys =>
    intro x hx
    rcases List.mem_cons.mp hx with h | h
    · simp [h]
    · obtain ⟨d, _, rfl⟩ := List.mem_map.mp h
      exact le_max_right d 0

theorem lossSeries_nonneg (c : List ℚ) : ∀ x ∈ lossSeries c, 0 ≤ x := by
  cases c with
  | nil => simp [lossSeries]
  | cons y ys =>
    intro x hx
    rcases List.mem_cons.mp hx with h | h
    · simp [h]
    · obtain ⟨d, _, rfl⟩ := List.mem_map.mp h
      exact le_max_right (-d) 0

theorem deltas_getD (c : List ℚ) (k : ℕ) (hk : k + 1 < c.length) :
    (deltas c).getD k 0 = c.getD (k + 1) 0 - c.getD k 0 := by
  unfold deltas
  rw [getD_zipWith _ c.tail c k 0 0 0 ?_ ?_, getD_tail]
  · simp [List.length_tail]; omega
  · omega

theorem closes_constUpTo (c : List ℚ) (i : ℕ) (hi : i < c.length)
    (hg : (avg_gain c).getD i 0 = 0) (hl : (avg_loss c).getD i 0 = 0) :
    ∀ k, k ≤ i → c.getD k 0 = c.getD 0 0 := by
  have hgain0 : ∀ k, k ≤ i → (gains c).getD k 0 = 0 :=
    ewm_getD_eq_zero (1 / 14) (by norm_num) (by norm_num) (gains c)
      (gains_nonneg c) i (by rw [length_gains]; exact hi) hg
  have hloss0 : ∀ k, k ≤ i → (lossSeries c).getD k 0 = 0 :=
    ewm_getD_eq_zero (1 / 14) (by norm_num) (by norm_num) (lossSeries c)
      (lossSeries_nonneg c) i (by rw [length_lossSeries]; exact hi) hl
  intro k
  induction k with
  | zero => intro _; rfl
  | succ k ihk =>
    intro hk1
    have hdz : (deltas c).getD k 0 = 0 := by
      obtain ⟨y, ys, rfl⟩ : ∃ y ys, c = y :: ys := by
        cases c with
        | nil => simp at hi
        | cons y ys => exact ⟨y, ys, rfl⟩
      have hklen : k < (deltas (y :: ys)).length := by
        rw [length_deltas]
        simp only [List.length_cons]
        have hi2 : i < ys.length + 1 := by simpa using hi
        omega
      have hgk : (gains (y :: ys)).getD (k + 1) 0 = 0 := hgain0 (k + 1) hk1
      have hlk : (lossSeries (y :: ys)).getD (k + 1) 0 = 0 := hloss0 (k + 1) hk1
      rw [gains, List.getD_cons_succ, getD_map _ _ k 0 0 hklen] at hgk
      rw [lossSeries, List.getD_cons_succ, getD_map _ _ k 0 0 hklen] at hlk
      have h1 : (deltas (y :: ys)).getD k 0 ≤ 0 := by
        have := le_max_left ((deltas (y :: ys)).getD k 0) 0
        rw [hgk] at this
        exact this
      have h2 : -((deltas (y :: ys)).getD k 0) ≤ 0 := by
        have := le_max_left (-((deltas (y :: ys)).getD k 0)) 0
        rw [hlk] at this
        exact this
      linarith
    rw [deltas_getD c k (by omega)] at hdz
    have : c.getD (k + 1) 0 = c.getD k 0 := by linarith
    rw [this]
    exact ihk (by omega)

end BT

namespace BT

/-! ### The scorer at a bar with undefined RSI -/

theorem scoreAt_eq_zero_of_rsi_undef (c : List ℚ) (i : ℕ) (hi : i < c.length)
    (hnan : (rsiList c).getD i none = none) : scoreAt c i = 0 := by
  have hzip : (rsiList c).getD i none =
      rsiOf ((avg_gain c).getD i 0) ((avg_loss c).getD i 0) := by
    unfold rsiList
    exact getD_zipWith rsiOf (avg_gain c) (avg_loss c) i 0 0 none
      (by rw [length_avg_gain]; exact hi) (by rw [length_avg_loss]; exact hi)
  have hgl : (avg_gain c).getD i 0 = 0 ∧ (avg_loss c).getD i 0 = 0 := by
    have hnan2 := hnan
    rw [hzip] at hnan2
    unfold rsiOf at hnan2
    split_ifs at hnan2 with h1 h2
    exact ⟨h2, h1⟩
  have hconst := closes_constUpTo c i hi hgl.1 hgl.2
  have hci : c.getD i 0 = c.getD 0 0 := hconst i (le_refl i)
  have hema : ∀ a : ℚ, (ewm a c).getD i 0 = c.getD 0 0 := fun a =>
    ewm_getD_constUpTo a (c.getD 0 0) c i hi hconst
  have hmacd : ∀ k, k ≤ i → (macdList c).getD k 0 = 0 := by
    intro k hk
    unfold macdList
    rw [getD_zipWith _ (ewm (2 / 13) c) (ewm (2 / 27) c) k 0 0 0
      (by rw [length_ewm]; omega) (by rw [length_ewm]; omega)]
    rw [ewm_getD_constUpTo (2 / 13) (c.getD 0 0) c k (by omega)
        (fun j hj => hconst j (by omega)),
      ewm_getD_constUpTo (2 / 27) (c.getD 0 0) c k (by omega)
        (fun j hj => hconst j (by omega))]
    ring
  have hsig : (macdSignalList c).getD i 0 = 0 := by
    unfold macdSignalList
    exact ewm_getD_constUpTo (1 / 5) 0 (macdList c) i
      (by rw [length_macdList]; exact hi) hmacd
  have hmacdi : (macdList c).getD i 0 = 0 := hmacd i (le_refl i)
  unfold scoreAt ema200 ema20 ema50
  rw [hci, hema (2 / 201), hema (2 / 21), hema (2 / 51), hmacdi, hsig, hnan]
  simp [cmpFilter, rsiFilter]

/-! ### Windowed sums for the ATR mean -/

theorem sum_take_getD : ∀ (k : ℕ) (xs : List ℚ), k ≤ xs.length →
    (xs.take k).sum = Finset.sum (Finset.range k) (fun j => xs.getD j 0) := by
  intro k
  induction k with
  | zero => intro xs h; simp
  | succ k ih =>
    intro xs h
    cases xs with
    | nil => simp at h
    | cons x xs =>
      rw [Finset.sum_range_succ']
      simp only [List.getD_cons_succ, List.getD_cons_zero]
      rw [List.take_succ_cons, List.sum_cons, ih xs (by simpa using h)]
      ring

theorem getD_drop (xs : List ℚ) (m i : ℕ) (d : ℚ) :
    (xs.drop m).getD i d = xs.getD (m + i) d := by
  simp [List.getD_eq_getElem?_getD, List.getElem?_drop]

theorem length_trList (bars : List Bar) : (trList bars).length = bars.length - 1 := by
  cases bars with
  | nil => rfl
  | cons b bs => simp [trList]

theorem trList_getD (bars : List Bar) (k : ℕ) (hk : k + 1 < bars.length) :
    (trList bars).getD k 0 =
      trueRange ((bars.getD k default).close) (bars.getD (k + 1) default) := by
  unfold trList
  rw [getD_zipWith _ bars.tail bars k default default 0 ?_ ?_]
  · rw [getD_tail]
  · rw [List.length_tail]; omega
  · omega

end BT

namespace BT

/-- Claim C1: in the forward scan the take-profit condition is tested before
the stop-loss condition at every future bar; at the first bar `j` that
touches either level, a satisfied TP condition — in particular the case
where both the TP and the SL level lie inside that bar's `[low, high]`
range — closes the trade WIN at exactly the TP level, and only otherwise
an SL touch closes it LOSS at exactly the SL level; scanning stops there
(the bars after `j` are never consulted), for both BUY and SELL. -/
theorem C1_tp_priority (dir : Dir) (entry tp sl : ℚ) (fb : List Bar) (j : ℕ)
    (hj : j < fb.length)
    (hfirst : ∀ k, k < j → tpHit dir entry tp (fb.getD k default) = false ∧
      slHit dir entry sl (fb.getD k default) = false) :
    (tpHit dir entry tp (fb.getD j default) = true →
      scan dir entry tp sl fb = some (tpLevel dir entry tp, Outcome.WIN)) ∧
    (tpHit dir entry tp (fb.getD j default) = false →
      slHit dir entry sl (fb.getD j default) = true →
      scan dir entry tp sl fb = some (slLevel dir entry sl, Outcome.LOSS)) := by
  induction fb generalizing j with
  | nil => simp at hj
  | cons b rest ih =>
    cases j with
    | zero =>
      constructor
      · intro htp
        simp only [List.getD_cons_zero] at htp
        simp [scan, htp]
      · intro htp hsl
        simp only [List.getD_cons_zero] at htp hsl
        simp [scan, htp, hsl]
    | succ j =>
      have h0 := hfirst 0 (Nat.succ_pos j)
      simp only [List.getD_cons_zero] at h0
      have hstep : scan dir entry tp sl (b :: rest) = scan dir entry tp sl rest := by
        simp [scan, h0.1, h0.2]
      have ihj := ih j (by simpa using hj)
        (fun k hk => by simpa using hfirst (k + 1) (by omega))
      constructor
      · intro htp
        rw [hstep]
        exact ihj.1 (by simpa using htp)
      · intro htp hsl
        rw [hstep]
        exact ihj.2 (by simpa using htp) (by simpa using hsl)

/-- Witness for C1: a BUY at entry 1 and a single future bar with range
[0.99, 1.01] that contains both the TP level 1.001 and the SL level 0.9992;
the scan returns WIN at exactly the TP level. -/
theorem C1_tp_priority_witness :
    scan Dir.BUY 1 TP_PIPS SL_PIPS [⟨101/100, 99/100, 1⟩] =
      some (tpLevel Dir.BUY 1 TP_PIPS, Outcome.WIN) :=
  (C1_tp_priority Dir.BUY 1 TP_PIPS SL_PIPS [⟨101/100, 99/100, 1⟩] 0 (by norm_num)
    (fun k hk => absurd hk (Nat.not_lt_zero k))).1
    (by norm_num [tpHit, TP_PIPS])

/-- Claim C2 is false as stated: with 1300 bars, bar index 250 has all
indicators valid (at least 200 prior bars) and a full lookahead window
(250 < 1300 - 24), yet the loop starts at `max(200, 1300 - 1000) = 300`
and never considers it — the source restricts the scan to the last 1000
candles, which the claim omits. -/
theorem C2_counterexample :
    start_idx 1300 = 300 ∧ 250 ∉ backtestIndices 1300 ∧
      200 ≤ 250 ∧ 250 < 1300 - MAX_HOLD_BARS := by
  refine ⟨by decide, ?_, by decide, by decide⟩
  intro hmem
  have h := (mem_backtestIndices 1300 250).mp hmem
  have hs : start_idx 1300 = 300 := by decide
  omega

/-- Claim C2 (amended): the backtest loop visits exactly the indices from
`max(200, len - 1000)` (the source restricts testing to the last 1000
candles) up to `len - MAX_HOLD_BARS` exclusive; consequently every recorded
trade's index lies in that range — in particular no trade ever opens on the
final `MAX_HOLD_BARS` bars, but bars between index 200 and
`max(200, len - 1000)` are skipped as well. -/
theorem C2_loop_range (n i : ℕ) (series : List Bar) (t : SimTrade) :
    (i ∈ backtestIndices n ↔ start_idx n ≤ i ∧ i < n - MAX_HOLD_BARS) ∧
    (t ∈ backtest series →
      start_idx series.length ≤ t.index ∧
        t.index < series.length - MAX_HOLD_BARS) := by
  refine ⟨mem_backtestIndices n i, ?_⟩
  intro ht
  obtain ⟨k, hk, hsim⟩ := backtest_mem_inv series t ht
  have hidx := (simulateAt_some_inv _ _ _ _ _ _ _ hsim).1
  rw [hidx]
  exact (mem_backtestIndices series.length k).mp hk

/-- Witness for C2 (amended): with 1225 bars the first visited index is
`max(200, 1225 - 1000) = 225`, which indeed lies in the iteration range. -/
theorem C2_loop_range_witness : 225 ∈ backtestIndices 1225 :=
  (C2_loop_range 1225 225 [] default).1.mpr (by decide)

/-- Claim C3 is false as stated: a bar with score 2 is classified BUY
(not NEUTRAL) by the spec's 4-filter classification, yet the backtest's
gate skips it — the backtest opens trades only on score ≥ 3 or ≤ -3. -/
theorem C3_counterexample :
    decision 2 = none ∧ specClassify4 2 = SigCat.BUY ∧
      SigCat.BUY ≠ SigCat.NEUTRAL :=
  ⟨by decide, by decide, by decide⟩

/-- Claim C3 (amended): the simulator opens a trade at `i` exactly when the
score reaches +3 (BUY) or -3 (SELL); every bar with -3 < score < 3 —
including the moderate scores ±2 that the spec's 4-filter classification
labels BUY/SELL — is skipped.  The ±2 banding exists only in the separate
live-signal path. -/
theorem C3_trade_gate (spread tp sl : ℚ) (hold i : ℕ) (series : List Bar) :
    (simulateAt spread tp sl hold series i = none ↔
      decision (scoreAt (series.map Bar.close) i) = none) ∧
    (∀ s : Int, decision s = none ↔ -3 < s ∧ s < 3) := by
  refine ⟨simulateAt_none_iff spread tp sl hold i series, ?_⟩
  intro s
  unfold decision
  split_ifs with h1 h2
  · constructor
    · intro h; cases h
    · intro h; exact absurd h1 (by omega)
  · constructor
    · intro h; cases h
    · intro h; exact absurd h2 (by omega)
  · constructor
    · intro _; omega
    · intro _; rfl

/-- Witness for C3 (amended): score 2 opens no trade, and on an empty
series (score 0 at every index) the simulator produces no trade. -/
theorem C3_trade_gate_witness :
    decision 2 = none ∧ simulateAt SPREAD_PIPS TP_PIPS SL_PIPS 24 [] 5 = none := by
  constructor
  · exact ((C3_trade_gate SPREAD_PIPS TP_PIPS SL_PIPS 24 5 []).2 2).mpr (by decide)
  · exact (C3_trade_gate SPREAD_PIPS TP_PIPS SL_PIPS 24 5 []).1.mpr (by decide)

/-- Claim C4 is false as stated: on an empty trade list `loss_pips = 0`,
so the source's `win_pips / loss_pips if loss_pips > 0 else float('inf')`
yields +∞, not 0. -/
theorem C4_counterexample :
    profit_factor [] = PF.inf ∧ PF.inf ≠ PF.val 0 := by
  constructor
  · simp [profit_factor, lossPips, winPips]
  · intro h; cases h

/-- Claim C4 (amended): `profit_factor` equals `win_pips / loss_pips`
whenever `loss_pips` is nonzero, and equals +∞ exactly when
`loss_pips = 0` — including when the trade list is empty, so zero trades
yield +∞ rather than 0; in no case is there a division fault. -/
theorem C4_profit_factor (rs : List SimTrade) :
    (profit_factor rs = PF.inf ↔ lossPips rs = 0) ∧
    (lossPips rs ≠ 0 → profit_factor rs = PF.val (winPips rs / lossPips rs)) := by
  have h0 : (0 : ℚ) ≤ lossPips rs := abs_nonneg _
  constructor
  · constructor
    · intro h
      by_contra hne
      have hpos : 0 < lossPips rs := lt_of_le_of_ne h0 (Ne.symm hne)
      unfold profit_factor at h
      rw [if_pos hpos] at h
      cases h
    · intro hz
      unfold profit_factor
      rw [if_neg (by rw [hz]; exact lt_irrefl 0)]
  · intro hne
    have hpos : 0 < lossPips rs := lt_of_le_of_ne h0 (Ne.symm hne)
    unfold profit_factor
    rw [if_pos hpos]

/-- Witness for C4 (amended): a list holding one losing trade of -8 pips
has `loss_pips = 8 > 0`, so the profit factor is the finite quotient. -/
theorem C4_profit_factor_witness :
    profit_factor wLossTrades = PF.val (winPips wLossTrades / lossPips wLossTrades) :=
  (C4_profit_factor wLossTrades).2
    (by norm_num [lossPips, wLossTrades])

/-- Claim C7 is false as stated: the live classification reports
confidence 100 for score 3, not |3|/4 = 75 percent. -/
theorem C7_counterexample :
    liveConfidence 3 = 100 ∧ specConfidence4 3 = 75 ∧
      ((liveConfidence 3 : ℚ) ≠ specConfidence4 3) := by
  refine ⟨by decide, by norm_num [specConfidence4], ?_⟩
  norm_num [liveConfidence, specConfidence4]

/-- Claim C7 (amended): the live confidence is banded, not proportional to
the score: 100 percent for |score| ≥ 3, 67 percent for |score| = 2, and 0
otherwise. -/
theorem C7_confidence (s : Int) :
    liveConfidence s =
      if 3 ≤ s.natAbs then 100 else if s.natAbs = 2 then 67 else 0 := by
  unfold liveConfidence
  split_ifs <;> omega

end BT

namespace BT

/-- Claim C5: when the forward scan touches neither level within the
holding window, the simulator closes the trade at `close[i + hold]` (time
exit); the outcome is WIN exactly when the time-exit price is strictly
favorable to the effective entry in the trade's direction (exit > entry
for BUY, exit < entry for SELL) and LOSS otherwise — in particular an exit
exactly at the entry price is a LOSS, and any strictly favorable move,
however small, is a full WIN. -/
theorem C5_time_exit (spread tp sl : ℚ) (hold i : ℕ) (series : List Bar)
    (dir : Dir)
    (hdec : decision (scoreAt (series.map Bar.close) i) = some dir)
    (hscan : scan dir (entryOf spread series i dir) tp sl
      (futureWindow series i hold) = none) :
    simulateAt spread tp sl hold series i =
      some ⟨i, dir, entryOf spread series i dir, (series.getD (i + hold) default).close,
        pipsOf dir (entryOf spread series i dir) ((series.getD (i + hold) default).close),
        timeExitResult dir (entryOf spread series i dir)
          ((series.getD (i + hold) default).close)⟩ ∧
    (timeExitResult dir (entryOf spread series i dir)
        ((series.getD (i + hold) default).close) = Outcome.WIN ↔
      ((dir = Dir.BUY ∧
          (series.getD (i + hold) default).close > entryOf spread series i dir) ∨
        (dir = Dir.SELL ∧
          (series.getD (i + hold) default).close < entryOf spread series i dir))) ∧
    ((series.getD (i + hold) default).close = entryOf spread series i dir →
      timeExitResult dir (entryOf spread series i dir)
        ((series.getD (i + hold) default).close) = Outcome.LOSS) := by
  refine ⟨simulateAt_eq_timeExit spread tp sl hold i series dir hdec hscan, ?_, ?_⟩
  · unfold timeExitResult
    split_ifs with h
    · exact iff_of_true rfl h
    · exact iff_of_false (by simp) h
  · intro heq
    unfold timeExitResult
    rw [if_neg]
    rintro (⟨-, hlt⟩ | ⟨-, hlt⟩) <;> rw [heq] at hlt <;> exact lt_irrefl _ hlt

/-- Witness for C5: on `wSeriesD` the score at bar 3 is +3, the single
lookahead bar stays inside the TP/SL corridor, and the simulator records
the time-exit trade built from `close[3 + 1]`. -/
theorem C5_time_exit_witness :
    simulateAt SPREAD_PIPS TP_PIPS SL_PIPS 1 wSeriesD 3 =
      some ⟨3, Dir.BUY, entryOf SPREAD_PIPS wSeriesD 3 Dir.BUY,
        (wSeriesD.getD (3 + 1) default).close,
        pipsOf Dir.BUY (entryOf SPREAD_PIPS wSeriesD 3 Dir.BUY)
          ((wSeriesD.getD (3 + 1) default).close),
        timeExitResult Dir.BUY (entryOf SPREAD_PIPS wSeriesD 3 Dir.BUY)
          ((wSeriesD.getD (3 + 1) default).close)⟩ :=
  (C5_time_exit SPREAD_PIPS TP_PIPS SL_PIPS 1 3 wSeriesD Dir.BUY
    (by norm_num [decision, scoreAt, wSeriesD, flatBar, ema20, ema50, ema200, ewm,
      ewmRec, macdList, macdSignalList, rsiList, rsiOf, avg_gain, avg_loss, gains,
      lossSeries, deltas, cmpFilter, rsiFilter, List.getD])
    (by norm_num [entryOf, wSeriesD, flatBar, SPREAD_PIPS, TP_PIPS, SL_PIPS, scan,
      tpHit, slHit, futureWindow, List.getD])).1

/-- Claim C6 is false as stated: for a constant close series both Wilder
averages are 0, and the source's `rs = avg_gain / avg_loss` is the float
NaN (0.0/0.0), so the RSI is an undefined numeric value, not the claimed
neutral 50. -/
theorem C6_counterexample :
    (avg_gain [1, 1]).getD 1 0 = 0 ∧ (avg_loss [1, 1]).getD 1 0 = 0 ∧
      (rsiList [1, 1]).getD 1 none = none ∧
      (rsiList [1, 1]).getD 1 none ≠ some 50 := by
  have h3 : (rsiList [1, 1]).getD 1 none = none := by
    norm_num [rsiList, rsiOf, avg_gain, avg_loss, gains, lossSeries, deltas, ewm,
      ewmRec, List.zipWith]
  refine ⟨?_, ?_, h3, ?_⟩
  · norm_num [avg_gain, gains, deltas, ewm, ewmRec, List.zipWith]
  · norm_num [avg_loss, lossSeries, deltas, ewm, ewmRec, List.zipWith]
  · rw [h3]
    intro h
    exact Option.noConfusion h

/-- Claim C6 (amended): the RSI column never raises a division fault:
RSI = 100 exactly when the smoothed `avg_loss` is 0 and `avg_gain` is
positive (the float quotient is +∞ and propagates to 100); when both
smoothed averages are 0 the RSI is undefined (the float NaN), not 50; and
every defined RSI value lies in [0, 100]. -/
theorem C6_rsi (c : List ℚ) (i : ℕ) (hi : i < c.length) :
    ((rsiList c).getD i none = none ↔
      (avg_gain c).getD i 0 = 0 ∧ (avg_loss c).getD i 0 = 0) ∧
    (∀ r : ℚ, (rsiList c).getD i none = some r → 0 ≤ r ∧ r ≤ 100) ∧
    ((rsiList c).getD i none = some 100 ↔
      (avg_loss c).getD i 0 = 0 ∧ 0 < (avg_gain c).getD i 0) := by
  have hzip : (rsiList c).getD i none =
      rsiOf ((avg_gain c).getD i 0) ((avg_loss c).getD i 0) := by
    unfold rsiList
    exact getD_zipWith rsiOf _ _ i 0 0 none
      (by rw [length_avg_gain]; exact hi) (by rw [length_avg_loss]; exact hi)
  have hg0 : (0 : ℚ) ≤ (avg_gain c).getD i 0 :=
    ewm_getD_nonneg _ (by norm_num) (by norm_num) _ (gains_nonneg c) i
  have hl0 : (0 : ℚ) ≤ (avg_loss c).getD i 0 :=
    ewm_getD_nonneg _ (by norm_num) (by norm_num) _ (lossSeries_nonneg c) i
  rw [hzip]
  unfold rsiOf
  by_cases hl : (avg_loss c).getD i 0 = 0
  · rw [if_pos hl]
    by_cases hg : (avg_gain c).getD i 0 = 0
    · rw [if_pos hg]
      refine ⟨iff_of_true rfl ⟨hg, hl⟩, ?_, ?_⟩
      · intro r hr; cases hr
      · constructor
        · intro h; cases h
        · rintro ⟨-, hgpos⟩; exact absurd hg (ne_of_gt hgpos)
    · rw [if_neg hg]
      refine ⟨?_, ?_, ?_⟩
      · constructor
        · intro h; cases h
        · rintro ⟨hgz, -⟩; exact absurd hgz hg
      · intro r hr
        injection hr with hr
        rw [← hr]
        norm_num
      · constructor
        · intro _; exact ⟨hl, lt_of_le_of_ne hg0 (Ne.symm hg)⟩
        · intro _; rfl
  · rw [if_neg hl]
    have hlpos : 0 < (avg_loss c).getD i 0 := lt_of_le_of_ne hl0 (Ne.symm hl)
    have hrs : (0 : ℚ) ≤ (avg_gain c).getD i 0 / (avg_loss c).getD i 0 :=
      div_nonneg hg0 (le_of_lt hlpos)
    have hden : (1 : ℚ) ≤ 1 + (avg_gain c).getD i 0 / (avg_loss c).getD i 0 := by
      linarith
    have hfrac_pos : (0 : ℚ) <
        100 / (1 + (avg_gain c).getD i 0 / (avg_loss c).getD i 0) := by
      positivity
    have hfrac_le : 100 / (1 + (avg_gain c).getD i 0 / (avg_loss c).getD i 0) ≤ 100 :=
      div_le_self (by norm_num) hden
    refine ⟨?_, ?_, ?_⟩
    · constructor
      · intro h; cases h
      · rintro ⟨-, habs⟩; exact absurd habs hl
    · intro r hr
      injection hr with hr
      constructor
      · linarith
      · linarith
    · constructor
      · intro h
        injection h with h
        have hlt : 100 - 100 / (1 + (avg_gain c).getD i 0 / (avg_loss c).getD i 0) <
            100 := by linarith
        exact absurd h (ne_of_lt hlt)
      · rintro ⟨habs, -⟩; exact absurd habs hl

/-- Witness for C6 (amended): with closes [1, 2] the bar-1 averages are
`avg_gain = 1/14 > 0`, `avg_loss = 0`, and the RSI evaluates to exactly
100 without a fault. -/
theorem C6_rsi_witness :
    (avg_loss [1, 2]).getD 1 0 = 0 ∧ (0 : ℚ) < (avg_gain [1, 2]).getD 1 0 ∧
      (rsiList [1, 2]).getD 1 none = some 100 := by
  have hl : (avg_loss [1, 2]).getD 1 0 = 0 := by
    norm_num [avg_loss, lossSeries, deltas, ewm, ewmRec, List.zipWith]
  have hg : (0 : ℚ) < (avg_gain [1, 2]).getD 1 0 := by
    norm_num [avg_gain, gains, deltas, ewm, ewmRec, List.zipWith]
  exact ⟨hl, hg, ((C6_rsi [1, 2] 1 (by norm_num)).2.2).mpr ⟨hl, hg⟩⟩

/-- Claim C8: at every bar whose RSI is still undefined (the only indicator
that can be undefined in this source — the EMAs and MACD have values from
bar 0 on), the scorer yields the zero score and the gate opens no trade:
the undefined value resolves every RSI-zone comparison to false, all
prices seen so far are equal, so each of the other filters contributes 0
and the bar is skipped as NEUTRAL, with no numeric fault. -/
theorem C8_undefined_rsi_neutral (c : List ℚ) (i : ℕ) (hi : i < c.length)
    (hnan : (rsiList c).getD i none = none) :
    scoreAt c i = 0 ∧ decision (scoreAt c i) = none := by
  have h := scoreAt_eq_zero_of_rsi_undef c i hi hnan
  refine ⟨h, ?_⟩
  rw [h]
  decide

/-- Witness for C8: on the constant series [1, 1, 1] the RSI at bar 2 is
undefined and the scorer returns score 0, opening no trade. -/
theorem C8_undefined_rsi_neutral_witness :
    scoreAt [1, 1, 1] 2 = 0 ∧ decision (scoreAt [1, 1, 1] 2) = none :=
  C8_undefined_rsi_neutral [1, 1, 1] 2 (by norm_num)
    (by norm_num [rsiList, rsiOf, avg_gain, avg_loss, gains, lossSeries, deltas,
      ewm, ewmRec, List.zipWith])

/-- Claim C9 (ATR modelled from the spec, absent from src/file_1.py):
fourteen times the ATR(14) value at bar `t` equals the plain sum of the
fourteen TrueRange values of bars `t-13 .. t` — ATR is their arithmetic
mean, not a Wilder smoothing — and TrueRange is exactly the maximum of
`high - low`, `|high - prev_close|` and `|low - prev_close|`: it equals
one of the three and dominates each. -/
theorem C9_atr (bars : List Bar) (t : ℕ) (h14 : 14 ≤ t) (ht : t < bars.length) :
    atrAt bars t * 14 =
      Finset.sum (Finset.range 14) (fun j =>
        trueRange ((bars.getD (t - 14 + j) default).close)
          (bars.getD (t - 14 + j + 1) default)) ∧
    (∀ (p : ℚ) (b : Bar),
      (trueRange p b = b.high - b.low ∨ trueRange p b = |b.high - p| ∨
        trueRange p b = |b.low - p|) ∧
      b.high - b.low ≤ trueRange p b ∧ |b.high - p| ≤ trueRange p b ∧
      |b.low - p| ≤ trueRange p b) := by
  constructor
  · unfold atrAt
    rw [div_mul_cancel₀ _ (by norm_num : (14 : ℚ) ≠ 0)]
    have hbound : 14 ≤ ((trList bars).drop (t - 14)).length := by
      rw [List.length_drop, length_trList]
      omega
    rw [sum_take_getD 14 ((trList bars).drop (t - 14)) hbound]
    apply Finset.sum_congr rfl
    intro j hj
    have hj14 : j < 14 := Finset.mem_range.mp hj
    rw [getD_drop, trList_getD bars (t - 14 + j) (by omega)]
  · intro p b
    unfold trueRange
    refine ⟨?_, le_max_left _ _,
      le_trans (le_max_left _ _) (le_max_right _ _),
      le_trans (le_max_right _ _) (le_max_right _ _)⟩
    rcases max_cases (b.high - b.low) (max |b.high - p| |b.low - p|) with
      ⟨h1, -⟩ | ⟨h1, -⟩
    · left; exact h1
    · rw [h1]
      rcases max_cases |b.high - p| |b.low - p| with ⟨h2, -⟩ | ⟨h2, -⟩
      · right; left; exact h2
      · right; right; exact h2

/-- Witness for C9: sixteen bars with unit price steps give ATR(14) = 1 at
bar 14, and 14 times that mean equals the sum of the fourteen unit
TrueRanges. -/
theorem C9_atr_witness :
    atrAt wBarsC 14 * 14 =
      Finset.sum (Finset.range 14) (fun j =>
        trueRange ((wBarsC.getD (14 - 14 + j) default).close)
          (wBarsC.getD (14 - 14 + j + 1) default)) :=
  (C9_atr wBarsC 14 (le_refl 14) (by decide)).1

/-- Claim C10: for every trade the simulator records (with positive TP and
SL distances), a WIN has strictly positive pips — a take-profit exit pays
exactly `tp * 10000` pips — a LOSS has pips ≤ 0, and zero pips can happen
only on a time exit (the scan found no level) at exactly the entry price. -/
theorem C10_pips_sign (spread tp sl : ℚ) (hold i : ℕ) (series : List Bar)
    (t : SimTrade) (htp : 0 < tp) (hsl : 0 < sl)
    (ht : simulateAt spread tp sl hold series i = some t) :
    (t.result = Outcome.WIN → 0 < t.pips) ∧
    (t.result = Outcome.LOSS → t.pips ≤ 0) ∧
    (t.pips = 0 →
      scan t.dir t.entry tp sl (futureWindow series i hold) = none ∧
        t.exitPrice = t.entry) ∧
    (∀ ex : ℚ, scan t.dir t.entry tp sl (futureWindow series i hold) =
        some (ex, Outcome.WIN) → t.pips = tp * 10000) := by
  obtain ⟨-, -, hpips, hbranch⟩ := simulateAt_some_inv spread tp sl hold i series t ht
  rcases hbranch with hscan | ⟨hscan, hexit, hres⟩
  · rcases scan_some_inv t.dir t.entry tp sl (futureWindow series i hold)
      t.exitPrice t.result hscan with ⟨hres, hex⟩ | ⟨hres, hex⟩
    · have hpipsval : t.pips = tp * 10000 := by
        rw [hpips, hex]
        cases t.dir
        · simp only [pipsOf, tpLevel]; ring
        · simp only [pipsOf, tpLevel]; ring
      have hpos : (0 : ℚ) < tp * 10000 := by positivity
      refine ⟨?_, ?_, ?_, ?_⟩
      · intro _; rw [hpipsval]; exact hpos
      · intro hL; rw [hres] at hL; cases hL
      · intro hz; rw [hpipsval] at hz; exact absurd hz hpos.ne'
      · intro ex _; exact hpipsval
    · have hpipsval : t.pips = -(sl * 10000) := by
        rw [hpips, hex]
        cases t.dir
        · simp only [pipsOf, slLevel]; ring
        · simp only [pipsOf, slLevel]; ring
      have hpos : (0 : ℚ) < sl * 10000 := by positivity
      refine ⟨?_, ?_, ?_, ?_⟩
      · intro hW; rw [hres] at hW; cases hW
      · intro _; rw [hpipsval]; linarith
      · intro hz; rw [hpipsval] at hz; linarith
      · intro ex hsc
        rw [hscan] at hsc
        injection hsc with hsc
        rw [Prod.mk.injEq] at hsc
        have := hsc.2
        rw [hres] at this
        cases this
  · refine ⟨?_, ?_, ?_, ?_⟩
    · intro hW
      rw [hres] at hW
      unfold timeExitResult at hW
      split_ifs at hW with hcond
      rcases hcond with ⟨hd, hlt⟩ | ⟨hd, hlt⟩
      · rw [hpips, hd]
        simp only [pipsOf]
        nlinarith
      · rw [hpips, hd]
        simp only [pipsOf]
        nlinarith
    · intro hL
      rw [hres] at hL
      unfold timeExitResult at hL
      split_ifs at hL with hcond
      cases hd : t.dir
      · have hle : ¬ (t.exitPrice > t.entry) := fun hgt => hcond (Or.inl ⟨hd, hgt⟩)
        rw [hpips, hd]
        simp only [pipsOf]
        nlinarith [not_lt.mp hle]
      · have hle : ¬ (t.exitPrice < t.entry) := fun hgt => hcond (Or.inr ⟨hd, hgt⟩)
        rw [hpips, hd]
        simp only [pipsOf]
        nlinarith [not_lt.mp hle]
    · intro hz
      refine ⟨hscan, ?_⟩
      rw [hpips] at hz
      cases hd : t.dir
      · rw [hd] at hz
        simp only [pipsOf] at hz
        have : t.exitPrice - t.entry = 0 := by
          rcases mul_eq_zero.mp hz with h | h
          · exact h
          · norm_num at h
        linarith
      · rw [hd] at hz
        simp only [pipsOf] at hz
        have : t.entry - t.exitPrice = 0 := by
          rcases mul_eq_zero.mp hz with h | h
          · exact h
          · norm_num at h
        linarith
    · intro ex hsc
      rw [hscan] at hsc
      cases hsc

/-- Witness for C10: on `wSeriesC` with a one-bar window the simulator
records the take-profit WIN `wTradeC`, whose pips are positive (exactly
`TP_PIPS * 10000 = 10`). -/
theorem C10_pips_sign_witness : 0 < wTradeC.pips := by
  have hdec : decision (scoreAt (wSeriesC.map Bar.close) 3) = some Dir.BUY := by
    norm_num [decision, scoreAt, wSeriesC, flatBar, ema20, ema50, ema200, ewm,
      ewmRec, macdList, macdSignalList, rsiList, rsiOf, avg_gain, avg_loss, gains,
      lossSeries, deltas, cmpFilter, rsiFilter, List.getD]
  have hscan : scan Dir.BUY (entryOf SPREAD_PIPS wSeriesC 3 Dir.BUY) TP_PIPS SL_PIPS
      (futureWindow wSeriesC 3 1) = some (10111 / 10000, Outcome.WIN) := by
    norm_num [entryOf, wSeriesC, flatBar, SPREAD_PIPS, TP_PIPS, SL_PIPS, scan,
      tpHit, slHit, tpLevel, futureWindow, List.getD]
  have hentry : entryOf SPREAD_PIPS wSeriesC 3 Dir.BUY = 10101 / 10000 := by
    norm_num [entryOf, wSeriesC, flatBar, SPREAD_PIPS, List.getD]
  have ht : simulateAt SPREAD_PIPS TP_PIPS SL_PIPS 1 wSeriesC 3 = some wTradeC := by
    rw [simulateAt_eq_scanExit SPREAD_PIPS TP_PIPS SL_PIPS 1 3 wSeriesC Dir.BUY
      (10111 / 10000) Outcome.WIN hdec hscan, hentry]
    norm_num [wTradeC, pipsOf]
  exact (C10_pips_sign SPREAD_PIPS TP_PIPS SL_PIPS 1 3 wSeriesC wTradeC
    (by norm_num [TP_PIPS]) (by norm_num [SL_PIPS]) ht).1 rfl

end BT
